import Mathlib

/-!
Verification of the DBFetch core against its specification.

The Python source is shallowly embedded:
* `src/models/sql_formatter.py` → `DBFetch.formatValue`,
  `DBFetch.createInsertStatements`, `DBFetch.createSingleInsert`,
  `DBFetch.validateTableName`;
* `src/models/dbf_reader.py` (filtering) → `DBFetch.matchCond`,
  `DBFetch.matchesConditions`, `DBFetch.filterLoop`,
  `DBFetch.getFilteredRecords`;
* `src/models/db_connection.py` (pool lifecycle) → `DBFetch.initializePool`,
  `DBFetch.ensurePoolIsOpen`, `DBFetch.executeQuery`.

Python strings are `List Char`; Python `None` is `Value.null`; raised
exceptions that the source lets escape a function are `Except`/sum results;
record dictionaries (which always carry every schema field) are total maps
`String → Value`.
-/

namespace DBFetch

/-- Calendar date, as produced by `datetime.date`. -/
structure Date where
  year : Nat
  month : Nat
  day : Nat
  deriving DecidableEq, Repr

/-- The scalar values a DBF record cell or a filter-condition literal can
hold: Python `None`, `int`, `str`, `datetime.date`, `bool`.
(A `datetime.datetime` record value behaves like `date` throughout the
filter because `datetime` is a subclass of `date` in Python, so the
`isinstance(record_value, date)` coercion branch is always the one taken.) -/
inductive Value where
  | null
  | int (n : Int)
  | str (s : List Char)
  | date (d : Date)
  | bool (b : Bool)
  deriving DecidableEq, Repr

/-- Python `str.replace(target, repl)` for a single-character target
(every `replace` in `sql_formatter.py` has a one-character needle). -/
def replaceChars (target : Char) (repl : List Char) : List Char → List Char
  | [] => []
  | c :: cs => (if c = target then repl else [c]) ++ replaceChars target repl cs

/-- CHARACTER-kind escaping, `sql_formatter.py` lines 36-37: first double
single quotes, then double backslashes. -/
def escC (s : List Char) : List Char :=
  replaceChars '\\' ['\\', '\\'] (replaceChars '\'' ['\'', '\''] s)

/-- MEMO-kind escaping, `sql_formatter.py` lines 45-49: double quotes,
double backslashes, then rewrite newline, carriage return and tab into
their two-character escape sequences, in that order. -/
def escM (s : List Char) : List Char :=
  replaceChars '\t' ['\\', 't']
    (replaceChars '\r' ['\\', 'r']
      (replaceChars '\n' ['\\', 'n']
        (replaceChars '\\' ['\\', '\\']
          (replaceChars '\'' ['\'', '\''] s))))

/-- Zero-pad the decimal form of `n` to width `w` (Python `%0wd`). -/
def padNum (w : Nat) (n : Nat) : List Char :=
  let s := (toString n).data
  List.replicate (w - s.length) '0' ++ s

/-- Python `str(date)`: ISO form `YYYY-MM-DD`. -/
def dateStr (d : Date) : List Char :=
  padNum 4 d.year ++ '-' :: (padNum 2 d.month ++ '-' :: padNum 2 d.day)

/-- Python `str(value)` for the value universe used here. -/
def pyStr : Value → List Char
  | .null => "None".data
  | .int n => (toString n).data
  | .str s => s
  | .date d => dateStr d
  | .bool b => if b then "True".data else "False".data

/-- Python truthiness test `not value` used by the MEMO branch. -/
def isFalsy : Value → Bool
  | .null => true
  | .int n => n = 0
  | .str s => s.isEmpty
  | .date _ => false
  | .bool b => !b

/-- `SQLFormatter.format_value` (`sql_formatter.py` lines 24-56): `None`
renders as `NULL` before any kind dispatch; `N` is verbatim, `D` is
single-quoted, `C` is quoted with quote- and backslash-doubling, `M` is an
`E'...'` literal with control-character escapes (empty/falsy memo is
`NULL`), and unknown kinds fall back to the `C` treatment. -/
def formatValue (value : Value) (fieldType : Char) (decimal : Nat) : String :=
  match value with
  | .null => "NULL"
  | _ =>
    if fieldType = 'N' then String.mk (pyStr value)
    else if fieldType = 'D' then String.mk ('\'' :: (pyStr value ++ ['\'']))
    else if fieldType = 'C' then String.mk ('\'' :: (escC (pyStr value) ++ ['\'']))
    else if fieldType = 'M' then
      if isFalsy value then "NULL"
      else String.mk ('E' :: '\'' :: (escM (pyStr value) ++ ['\'']))
    else String.mk ('\'' :: (escC (pyStr value) ++ ['\'']))

/-- Modelled from the spec: the escape map of the target engine's
backslash-escape string-literal dialect (the engine itself is external to
the repository). `\n`, `\r`, `\t` denote the control characters; any other
escaped character denotes itself. -/
def escDecode (d : Char) : Char :=
  if d = 'n' then '\n' else if d = 'r' then '\r' else if d = 't' then '\t' else d

/-- Modelled from the spec: the body parser of the target engine's
string-literal rules in a dialect with backslash escapes. Reads characters
after the opening quote: a doubled quote denotes one quote, a backslash
escapes the next character, a lone quote terminates the literal. Returns
the decoded content and the input remaining after the closing quote. -/
def parseBody : List Char → Option (List Char × List Char)
  | [] => none
  | c :: xs =>
    if c = '\'' then
      match xs with
      | '\'' :: ys => (parseBody ys).map (fun p => ('\'' :: p.1, p.2))
      | _ => some ([], xs)
    else if c = '\\' then
      match xs with
      | [] => none
      | d :: ys => (parseBody ys).map (fun p => (escDecode d :: p.1, p.2))
    else
      (parseBody xs).map (fun p => (c :: p.1, p.2))

/-- Accept a fully consumed literal body. -/
def finishLit (body : List Char) : Option (List Char) :=
  match parseBody body with
  | some (content, []) => some content
  | _ => none

/-- Modelled from the spec: the target engine's parsing of a complete
string literal, either `'...'` or the escaped-string form `E'...'`,
in a dialect with backslash escapes. -/
def parseLiteral (l : List Char) : Option (List Char) :=
  match l with
  | [] => none
  | c :: rest =>
    if c = 'E' then
      match rest with
      | c2 :: rest2 => if c2 = '\'' then finishLit rest2 else none
      | [] => none
    else if c = '\'' then finishLit rest
    else none

/-! ### Escaping lemmas -/

lemma replaceChars_append (t : Char) (r : List Char) (a b : List Char) :
    replaceChars t r (a ++ b) = replaceChars t r a ++ replaceChars t r b := by
  induction a with
  | nil => simp [replaceChars]
  | cons x xs ih => simp [replaceChars, ih]

/-- Per-character form of the CHARACTER escaping. -/
def escCchar (c : Char) : List Char :=
  if c = '\'' then ['\'', '\'']
  else if c = '\\' then ['\\', '\\']
  else [c]

/-- Per-character form of the MEMO escaping. -/
def escMchar (c : Char) : List Char :=
  if c = '\'' then ['\'', '\'']
  else if c = '\\' then ['\\', '\\']
  else if c = '\n' then ['\\', 'n']
  else if c = '\r' then ['\\', 'r']
  else if c = '\t' then ['\\', 't']
  else [c]

lemma escC_nil : escC [] = [] := rfl

lemma escC_cons (c : Char) (s : List Char) :
    escC (c :: s) = escCchar c ++ escC s := by
  unfold escC
  rw [show replaceChars '\'' ['\'', '\''] (c :: s)
        = (if c = '\'' then ['\'', '\''] else [c]) ++ replaceChars '\'' ['\'', '\''] s
      from rfl,
    replaceChars_append]
  by_cases h1 : c = '\''
  · subst h1; rfl
  · by_cases h2 : c = '\\'
    · subst h2; simp [escCchar, replaceChars]
    · simp [escCchar, h1, h2, replaceChars]

lemma escM_nil : escM [] = [] := rfl

lemma escM_cons (c : Char) (s : List Char) :
    escM (c :: s) = escMchar c ++ escM s := by
  unfold escM
  rw [show replaceChars '\'' ['\'', '\''] (c :: s)
        = (if c = '\'' then ['\'', '\''] else [c]) ++ replaceChars '\'' ['\'', '\''] s
      from rfl,
    replaceChars_append, replaceChars_append, replaceChars_append, replaceChars_append]
  by_cases h1 : c = '\''
  · subst h1; rfl
  · by_cases h2 : c = '\\'
    · subst h2; simp [escMchar, replaceChars]
    · by_cases h3 : c = '\n'
      · subst h3; simp [escMchar, replaceChars]
      · by_cases h4 : c = '\r'
        · subst h4; simp [escMchar, replaceChars]
        · by_cases h5 : c = '\t'
          · subst h5; simp [escMchar, replaceChars]
          · simp [escMchar, h1, h2, h3, h4, h5, replaceChars]

lemma parseBody_quote_quote (xs : List Char) :
    parseBody ('\'' :: '\'' :: xs) = (parseBody xs).map (fun p => ('\'' :: p.1, p.2)) := by
  rw [parseBody.eq_def]; simp

lemma parseBody_backslash (d : Char) (xs : List Char) :
    parseBody ('\\' :: d :: xs) = (parseBody xs).map (fun p => (escDecode d :: p.1, p.2)) := by
  rw [parseBody.eq_def]; simp

lemma parseBody_quote_end : parseBody ['\''] = some ([], []) := by
  rw [parseBody.eq_def]; simp

lemma parseBody_other (c : Char) (xs : List Char) (h1 : c ≠ '\'') (h2 : c ≠ '\\') :
    parseBody (c :: xs) = (parseBody xs).map (fun p => (c :: p.1, p.2)) := by
  rw [parseBody.eq_def]; simp [h1, h2]

lemma parseBody_escC (s : List Char) :
    parseBody (escC s ++ ['\'']) = some (s, []) := by
  induction s with
  | nil => rw [escC_nil, List.nil_append, parseBody_quote_end]
  | cons c s ih =>
    rw [escC_cons, List.append_assoc]
    by_cases h1 : c = '\''
    · subst h1
      rw [show escCchar '\'' = ['\'', '\''] from by decide]
      simp only [List.cons_append, List.nil_append]
      rw [parseBody_quote_quote, ih]; rfl
    · by_cases h2 : c = '\\'
      · subst h2
        rw [show escCchar '\\' = ['\\', '\\'] from by decide]
        simp only [List.cons_append, List.nil_append]
        rw [parseBody_backslash, ih, show escDecode '\\' = '\\' from by decide]; rfl
      · rw [show escCchar c = [c] from by simp [escCchar, h1, h2]]
        simp only [List.cons_append, List.nil_append]
        rw [parseBody_other c _ h1 h2, ih]; rfl

lemma parseBody_escM (s : List Char) :
    parseBody (escM s ++ ['\'']) = some (s, []) := by
  induction s with
  | nil => rw [escM_nil, List.nil_append, parseBody_quote_end]
  | cons c s ih =>
    rw [escM_cons, List.append_assoc]
    by_cases h1 : c = '\''
    · subst h1
      rw [show escMchar '\'' = ['\'', '\''] from by decide]
      simp only [List.cons_append, List.nil_append]
      rw [parseBody_quote_quote, ih]; rfl
    · by_cases h2 : c = '\\'
      · subst h2
        rw [show escMchar '\\' = ['\\', '\\'] from by decide]
        simp only [List.cons_append, List.nil_append]
        rw [parseBody_backslash, ih, show escDecode '\\' = '\\' from by decide]; rfl
      · by_cases h3 : c = '\n'
        · subst h3
          rw [show escMchar '\n' = ['\\', 'n'] from by decide]
          simp only [List.cons_append, List.nil_append]
          rw [parseBody_backslash, ih, show escDecode 'n' = '\n' from by decide]; rfl
        · by_cases h4 : c = '\r'
          · subst h4
            rw [show escMchar '\r' = ['\\', 'r'] from by decide]
            simp only [List.cons_append, List.nil_append]
            rw [parseBody_backslash, ih, show escDecode 'r' = '\r' from by decide]; rfl
          · by_cases h5 : c = '\t'
            · subst h5
              rw [show escMchar '\t' = ['\\', 't'] from by decide]
              simp only [List.cons_append, List.nil_append]
              rw [parseBody_backslash, ih, show escDecode 't' = '\t' from by decide]; rfl
            · rw [show escMchar c = [c] from by simp [escMchar, h1, h2, h3, h4, h5]]
              simp only [List.cons_append, List.nil_append]
              rw [parseBody_other c _ h1 h2, ih]; rfl

/-! ### Claim C1: escaping round-trips -/

/-- Claim C1: for every string containing a single quote, backslash,
newline, tab or carriage return, rendering it with `format_value`
(CHARACTER kind `C` or MEMO kind `M`) and applying the target engine's
literal-parsing rules (backslash-escape dialect) recovers the original
string exactly. -/
theorem escaping_round_trip (s : List Char)
    (hspec : ∃ c ∈ s, c ∈ (['\'', '\\', '\n', '\t', '\r'] : List Char)) :
    parseLiteral (formatValue (Value.str s) 'C' 0).data = some s ∧
    parseLiteral (formatValue (Value.str s) 'M' 0).data = some s := by
  have hne : s ≠ [] := by
    rcases hspec with ⟨c, hc, _⟩
    intro h; subst h; exact absurd hc (List.not_mem_nil c)
  have hfal : isFalsy (Value.str s) = false := by
    cases s with
    | nil => exact absurd rfl hne
    | cons a t => rfl
  constructor
  · have hform : (formatValue (Value.str s) 'C' 0).data = '\'' :: (escC s ++ ['\'']) := rfl
    rw [hform, parseLiteral.eq_def]
    simp [finishLit, parseBody_escC]
  · have hform : (formatValue (Value.str s) 'M' 0).data
        = 'E' :: '\'' :: (escM s ++ ['\'']) := by
      show (if isFalsy (Value.str s) then ("NULL" : String)
            else String.mk ('E' :: '\'' :: (escM (pyStr (Value.str s)) ++ ['\'']))).data
          = 'E' :: '\'' :: (escM s ++ ['\''])
      rw [hfal]
      rfl
    rw [hform, parseLiteral.eq_def]
    simp [finishLit, parseBody_escM]

/-- Concrete input for the C1 witness: contains a quote, a backslash and a
newline. -/
def c1wStr : List Char := ['a', '\'', 'b', '\\', 'c', '\n', 'd']

theorem escaping_round_trip_witness :
    (∃ c ∈ c1wStr, c ∈ (['\'', '\\', '\n', '\t', '\r'] : List Char)) ∧
    (parseLiteral (formatValue (Value.str c1wStr) 'C' 0).data = some c1wStr ∧
     parseLiteral (formatValue (Value.str c1wStr) 'M' 0).data = some c1wStr) :=
  ⟨by decide, escaping_round_trip c1wStr (by decide)⟩

/-! ### SQL Encoder/Batcher -/

/-- A record, i.e. a Python dict from field name to value. DBF records
always carry every schema field, so the map is total. -/
abbrev Rec := String → Value

/-- A field descriptor as consumed by the formatter: the dict keys `name`,
`type` and `decimal` (the latter read via `field.get('decimal', 0)`,
modelled with the default already applied). -/
structure SQLField where
  name : String
  ftype : Char
  decimal : Nat

/-- `SQLFormatter._validate_table_name` (`sql_formatter.py` line 113):
`table_name.replace("_", "").isalnum()`. Python `isalnum` is true iff the
string is non-empty and every character is alphanumeric (modelled over the
ASCII alphanumerics). -/
def validateTableName (t : String) : Bool :=
  let stripped := t.data.filter (fun c => c ≠ '_')
  !stripped.isEmpty && stripped.all Char.isAlphanum

/-- Python `','.join`. -/
def joinCommaS (l : List String) : String := String.intercalate "," l

/-- `SQLFormatter._create_single_insert` (`sql_formatter.py` lines 83-101). -/
def createSingleInsert (table : String) (fields : List SQLField) (records : List Rec) : String :=
  let fieldNames := fields.map (fun f => f.name)
  let valuesList := records.map (fun r =>
    "(" ++ joinCommaS (fields.map (fun f => formatValue (r f.name) f.ftype f.decimal)) ++ ")")
  "INSERT INTO " ++ table ++ " (" ++ joinCommaS fieldNames ++ ") VALUES " ++ joinCommaS valuesList

/-- The batch partition produced by `for i in range(0, len(records), B):
records[i:i+B]`. The `B = 0` branch is unreachable: Python's `range`
raises `ValueError` for a zero step, which `createInsertStatements`
models before ever calling `chunks`. -/
def chunks (B : Nat) (l : List α) : List (List α) :=
  if h : l.isEmpty then []
  else if hB : B = 0 then []
  else l.take B :: chunks B (l.drop B)
termination_by l.length
decreasing_by
  simp only [List.length_drop]
  have hl : l ≠ [] := by
    intro h0; rw [h0] at h; exact h (by rfl)
  have : 0 < l.length := List.length_pos.mpr hl
  omega

/-- `SQLFormatter.create_insert_statements` (`sql_formatter.py` lines
58-81): validate the table name, reject empty fields/records, then one
INSERT per batch of `batch_size` records. A zero `batch_size` makes
Python's `range` raise `ValueError`. -/
def createInsertStatements (table : String) (records : List Rec)
    (fields : List SQLField) (batchSize : Nat) : Except String (List String) :=
  if !validateTableName table then .error ("Invalid table name " ++ table)
  else if fields.isEmpty || records.isEmpty then .error "Fields or records cannot be empty"
  else if batchSize = 0 then .error "range() arg 3 must not be zero"
  else .ok ((chunks batchSize records).map (createSingleInsert table fields))

/-! ### Batching lemmas -/

lemma chunks_nil (B : Nat) : chunks B ([] : List α) = [] := by
  rw [chunks]; rfl

lemma chunks_cons (B : Nat) (hB : B ≠ 0) (l : List α) (hl : l ≠ []) :
    chunks B l = l.take B :: chunks B (l.drop B) := by
  rw [chunks]
  have h1 : l.isEmpty = false := by
    cases l with
    | nil => exact absurd rfl hl
    | cons a t => rfl
  simp [h1, hB]

lemma chunks_flatten (B : Nat) (hB : B ≠ 0) :
    ∀ n (l : List α), l.length ≤ n → (chunks B l).flatten = l := by
  intro n
  induction n with
  | zero =>
    intro l hl
    have : l = [] := List.length_eq_zero.mp (Nat.le_zero.mp hl)
    subst this
    simp [chunks_nil]
  | succ n ih =>
    intro l hl
    by_cases hnil : l = []
    · subst hnil; simp [chunks_nil]
    · rw [chunks_cons B hB l hnil]
      have hlen : (l.drop B).length ≤ n := by
        have h1 : 0 < l.length := List.length_pos.mpr hnil
        have h2 : 0 < B := Nat.pos_of_ne_zero hB
        simp only [List.length_drop]
        omega
      rw [List.flatten_cons, ih (l.drop B) hlen, List.take_append_drop]

lemma chunks_length (B : Nat) (hB : B ≠ 0) :
    ∀ n (l : List α), l.length ≤ n → (chunks B l).length = (l.length + B - 1) / B := by
  intro n
  induction n with
  | zero =>
    intro l hl
    have : l = [] := List.length_eq_zero.mp (Nat.le_zero.mp hl)
    subst this
    have h2 : 0 < B := Nat.pos_of_ne_zero hB
    rw [chunks_nil]
    simp only [List.length_nil]
    symm
    apply Nat.div_eq_of_lt
    omega
  | succ n ih =>
    intro l hl
    by_cases hnil : l = []
    · subst hnil
      have h2 : 0 < B := Nat.pos_of_ne_zero hB
      rw [chunks_nil]
      simp only [List.length_nil]
      symm
      apply Nat.div_eq_of_lt
      omega
    · rw [chunks_cons B hB l hnil]
      have h1 : 0 < l.length := List.length_pos.mpr hnil
      have h2 : 0 < B := Nat.pos_of_ne_zero hB
      have hlen : (l.drop B).length ≤ n := by
        simp only [List.length_drop]; omega
      rw [List.length_cons, ih (l.drop B) hlen, List.length_drop]
      by_cases hle : l.length ≤ B
      · have hz : l.length - B = 0 := by omega
        rw [hz]
        have hlhs : (0 + B - 1) / B = 0 := by
          apply Nat.div_eq_of_lt; omega
        have hrhs : (l.length + B - 1) / B = 1 := by
          apply Nat.div_eq_of_lt_le <;> omega
        omega
      · have hsplit : l.length + B - 1 = (l.length - B + B - 1) + B := by omega
        rw [hsplit, Nat.add_div_right _ h2]

lemma chunks_sizes (B : Nat) (hB : B ≠ 0) :
    ∀ n (l : List α), l.length ≤ n → ∀ c ∈ chunks B l, c.length ≤ B := by
  intro n
  induction n with
  | zero =>
    intro l hl c hc
    have : l = [] := List.length_eq_zero.mp (Nat.le_zero.mp hl)
    subst this
    rw [chunks_nil] at hc
    exact absurd hc (List.not_mem_nil c)
  | succ n ih =>
    intro l hl c hc
    by_cases hnil : l = []
    · subst hnil; rw [chunks_nil] at hc; exact absurd hc (List.not_mem_nil c)
    · rw [chunks_cons B hB l hnil] at hc
      rcases List.mem_cons.mp hc with h | h
      · subst h
        simp [List.length_take]
      · have h1 : 0 < l.length := List.length_pos.mpr hnil
        have h2 : 0 < B := Nat.pos_of_ne_zero hB
        have hlen : (l.drop B).length ≤ n := by
          simp only [List.length_drop]; omega
        exact ih (l.drop B) hlen c h

/-! ### Claim C2: batching is exhaustive and size-bounded -/

/-- Claim C2: with nonempty records and fields, a valid table name and a
batch size of at least 1, `create_insert_statements` yields one statement
per contiguous chunk of the records; there are exactly `ceil(N/B)` chunks,
each of at most `B` rows, their concatenation is the input record sequence
in order, and each statement lists the columns in the order of the fields
list. -/
theorem batching_exhaustive (table : String) (records : List Rec)
    (fields : List SQLField) (B : Nat)
    (hr : records ≠ []) (hf : fields ≠ [])
    (ht : validateTableName table = true) (hB : 1 ≤ B) :
    createInsertStatements table records fields B
      = .ok ((chunks B records).map (createSingleInsert table fields)) ∧
    (chunks B records).length = (records.length + B - 1) / B ∧
    (∀ c ∈ chunks B records, c.length ≤ B) ∧
    (chunks B records).flatten = records ∧
    (∀ c : List Rec, createSingleInsert table fields c
      = "INSERT INTO " ++ table ++ " (" ++ joinCommaS (fields.map (fun f => f.name))
        ++ ") VALUES "
        ++ joinCommaS (c.map (fun r =>
            "(" ++ joinCommaS (fields.map (fun f => formatValue (r f.name) f.ftype f.decimal))
              ++ ")"))) := by
  have hB0 : B ≠ 0 := by omega
  have hre : records.isEmpty = false := by
    cases records with
    | nil => exact absurd rfl hr
    | cons a t => rfl
  have hfe : fields.isEmpty = false := by
    cases fields with
    | nil => exact absurd rfl hf
    | cons a t => rfl
  refine ⟨?_, ?_, ?_, ?_, ?_⟩
  · unfold createInsertStatements
    rw [ht, hre, hfe]
    simp [hB0]
  · exact chunks_length B hB0 records.length records (le_refl _)
  · exact chunks_sizes B hB0 records.length records (le_refl _)
  · exact chunks_flatten B hB0 records.length records (le_refl _)
  · intro c; rfl

/-- Witness records for C2. -/
def c2rec1 : Rec := fun _ => Value.int 100

/-- Witness records for C2. -/
def c2rec2 : Rec := fun _ => Value.int 200

theorem batching_exhaustive_witness :
    createInsertStatements "t" [c2rec1, c2rec2] [⟨"A", 'N', 0⟩] 1
      = .ok ((chunks 1 [c2rec1, c2rec2]).map (createSingleInsert "t" [⟨"A", 'N', 0⟩])) ∧
    (chunks 1 [c2rec1, c2rec2]).length = ([c2rec1, c2rec2].length + 1 - 1) / 1 :=
  ⟨(batching_exhaustive "t" [c2rec1, c2rec2] [⟨"A", 'N', 0⟩] 1
      (by simp) (by simp) (by decide) (by decide)).1,
   (batching_exhaustive "t" [c2rec1, c2rec2] [⟨"A", 'N', 0⟩] 1
      (by simp) (by simp) (by decide) (by decide)).2.1⟩

/-! ### Claim C6: identifier validation -/

/-- Claim C6: the table-name validator accepts a name iff the name with
underscores removed is non-empty and all-alphanumeric; it rejects
`"bad name"` and `"tab;le"`, accepts `"cancf_di"`, rejects every
dotted/schema-qualified name, and `create_insert_statements` fails with a
validation error whenever the validator rejects. -/
theorem identifier_validation :
    (∀ t : String, validateTableName t = true ↔
      (t.data.filter (fun c => c ≠ '_') ≠ [] ∧
       ∀ c ∈ t.data.filter (fun c => c ≠ '_'), c.isAlphanum)) ∧
    validateTableName "bad name" = false ∧
    validateTableName "tab;le" = false ∧
    validateTableName "cancf_di" = true ∧
    (∀ t : String, '.' ∈ t.data → validateTableName t = false) ∧
    (∀ (t : String) (records : List Rec) (fields : List SQLField) (B : Nat),
      validateTableName t = false →
      createInsertStatements t records fields B = .error ("Invalid table name " ++ t)) := by
  refine ⟨?_, by decide, by decide, by decide, ?_, ?_⟩
  · intro t
    unfold validateTableName
    simp only [Bool.and_eq_true, Bool.not_eq_true', List.isEmpty_iff, List.all_eq_true]
    constructor
    · rintro ⟨h1, h2⟩
      exact ⟨by simpa using h1, fun c hc => by simpa using h2 c hc⟩
    · rintro ⟨h1, h2⟩
      refine ⟨?_, fun c hc => by simpa using h2 c hc⟩
      cases hfe : (t.data.filter (fun c => c ≠ '_')) with
      | nil => exact absurd hfe h1
      | cons a l => simp [hfe]
  · intro t hdot
    unfold validateTableName
    simp only [Bool.and_eq_false_iff]
    right
    rw [List.all_eq_false]
    refine ⟨'.', ?_, by decide⟩
    rw [List.mem_filter]
    exact ⟨hdot, by decide⟩
  · intro t records fields B hv
    unfold createInsertStatements
    rw [hv]
    rfl

theorem identifier_validation_witness :
    createInsertStatements "bad name" ([] : List Rec) ([] : List SQLField) 1000
      = .error ("Invalid table name " ++ "bad name") :=
  identifier_validation.2.2.2.2.2 "bad name" [] [] 1000 (by decide)

/-! ### DBF reader: condition filtering (`dbf_reader.py` lines 234-350) -/

/-- Split a character list on `-` (for `datetime.strptime(s, %Y-%m-%d)`). -/
def splitDash : List Char → List (List Char)
  | [] => [[]]
  | c :: cs =>
    if c = '-' then [] :: splitDash cs
    else
      match splitDash cs with
      | p :: ps => (c :: p) :: ps
      | [] => [[c]]

/-- Non-empty and all decimal digits. -/
def isDigitList (l : List Char) : Bool := !l.isEmpty && l.all Char.isDigit

/-- Decimal value of a digit list. -/
def digitsToNat (l : List Char) : Nat :=
  l.foldl (fun a c => a * 10 + (c.toNat - 48)) 0

/-- Days in a month, with Gregorian leap years. -/
def daysInMonth (y m : Nat) : Nat :=
  if m = 2 then
    if (y % 4 = 0 && y % 100 ≠ 0) || y % 400 = 0 then 29 else 28
  else if m = 4 ∨ m = 6 ∨ m = 9 ∨ m = 11 then 30
  else 31

/-- `datetime.strptime(value, %Y-%m-%d).date()`: three dash-separated
digit groups. CPython's `%Y` directive matches exactly four digits, and
`%m`/`%d` one or two; the `datetime` constructor then requires
`MINYEAR = 1 ≤ year` (so `0000` is rejected), month `1..12`, and a day
valid for the month (Gregorian leap years). `none` models the
`ValueError` raised on any other string. -/
def parseDate (s : List Char) : Option Date :=
  match splitDash s with
  | [ys, ms, ds] =>
    if isDigitList ys && isDigitList ms && isDigitList ds
        && ys.length = 4 && ms.length ≤ 2 && ds.length ≤ 2 then
      let y := digitsToNat ys
      let m := digitsToNat ms
      let d := digitsToNat ds
      if 1 ≤ y && 1 ≤ m && m ≤ 12 && 1 ≤ d && d ≤ daysInMonth y m then some ⟨y, m, d⟩
      else none
    else none
  | _ => none

/-- Lexicographic `<` on Python strings. -/
def lexLt : List Char → List Char → Bool
  | [], [] => false
  | [], _ :: _ => true
  | _ :: _, [] => false
  | a :: as, b :: bs => a < b || (a = b && lexLt as bs)

/-- Calendar order on dates. -/
def dateLe (a b : Date) : Bool :=
  a.year < b.year || (a.year = b.year &&
    (a.month < b.month || (a.month = b.month && a.day ≤ b.day)))

/-- Strict calendar order on dates. -/
def dateLt (a b : Date) : Bool :=
  a.year < b.year || (a.year = b.year &&
    (a.month < b.month || (a.month = b.month && a.day < b.day)))

/-- Python `==` on the value universe: total, `False` across unrelated
types, with `bool` comparing as its integer value. -/
def pyEqV : Value → Value → Bool
  | .null, .null => true
  | .int a, .int b => a = b
  | .str a, .str b => a = b
  | .date a, .date b => a = b
  | .bool a, .bool b => a = b
  | .bool a, .int b => (if a then (1 : Int) else 0) = b
  | .int a, .bool b => a = (if b then (1 : Int) else 0)
  | _, _ => false

/-- Numeric view shared by `int` and `bool` (Python `bool` is an `int`). -/
def numView : Value → Option Int
  | .int n => some n
  | .bool b => some (if b then 1 else 0)
  | _ => none

/-- Python `<`: `none` models the `TypeError` raised on unordered type
pairs. -/
def pyLtV (a b : Value) : Option Bool :=
  match numView a, numView b with
  | some x, some y => some (decide (x < y))
  | _, _ =>
    match a, b with
    | .str x, .str y => some (lexLt x y)
    | .date x, .date y => some (dateLt x y)
    | _, _ => none

/-- Python `<=`: `none` models `TypeError`. -/
def pyLeV (a b : Value) : Option Bool :=
  match numView a, numView b with
  | some x, some y => some (decide (x ≤ y))
  | _, _ =>
    match a, b with
    | .str x, .str y => some (lexLt x y || x = y)
    | .date x, .date y => some (dateLe x y)
    | _, _ => none

/-- Python `record_value > value` (reflected `<`). -/
def pyGtV (a b : Value) : Option Bool := pyLtV b a

/-- Python `record_value >= value` (reflected `<=`). -/
def pyGeV (a b : Value) : Option Bool := pyLeV b a

/-- A filter condition: the dict `{field, value, operator?, value2?}`.
A missing `operator` key means `condition.get('operator', '=')` yields
`=`; a missing `value2` key makes `condition['value2']` raise `KeyError`. -/
structure Condition where
  field : String
  value : Value
  operator : Option String
  value2 : Option Value
  deriving DecidableEq, Repr

/-- `condition.get('operator', '=')`. -/
def effOp (c : Condition) : String := c.operator.getD "="

/-- Exceptions that can escape `_matches_conditions`. -/
inductive PyErr where
  | keyError
  | typeError
  deriving DecidableEq, Repr

/-- Outcome of the date-coercion `try` block of `_matches_conditions`
(`dbf_reader.py` lines 314-327). -/
inductive DCoerce where
  | falseNow
  | keyErr
  | ok (value : Value) (c : Condition)
  deriving DecidableEq, Repr

/-- Second phase of the coercion: `if operator == between and
isinstance(condition[value2], str)` parse `value2` and assign the parsed
date back into the condition dict (the in-place mutation). A missing
`value2` key raises `KeyError`; a parse failure is the caught
`ValueError`. -/
def dateCoerceV2 (v : Value) (c : Condition) (op : String) : DCoerce :=
  if op = "between" then
    match c.value2 with
    | none => .keyErr
    | some (.str s2) =>
      match parseDate s2 with
      | none => .falseNow
      | some d2 => .ok v { c with value2 := some (.date d2) }
    | some _ => .ok v c
  else .ok v c

/-- First phase of the coercion: parse the condition's `value` with the
canonical date format when it is a string (`ValueError` on failure is
caught and makes the condition evaluate false). -/
def dateCoerce (c : Condition) (op : String) : DCoerce :=
  match c.value with
  | .str s =>
    match parseDate s with
    | none => .falseNow
    | some d => dateCoerceV2 (Value.date d) c op
  | v => dateCoerceV2 v c op

/-- The operator dispatch at the bottom of `_matches_conditions`
(`dbf_reader.py` lines 329-348). An unknown operator falls through every
`elif` and the condition passes. `between` is the Python chained
comparison `value <= record_value <= value2` with its short-circuit. -/
def applyOp (op : String) (rv value : Value) (value2 : Option Value) : Except PyErr Bool :=
  if op = "=" then .ok (pyEqV rv value)
  else if op = ">" then
    match pyGtV rv value with
    | some b => .ok b
    | none => .error .typeError
  else if op = "<" then
    match pyLtV rv value with
    | some b => .ok b
    | none => .error .typeError
  else if op = ">=" then
    match pyGeV rv value with
    | some b => .ok b
    | none => .error .typeError
  else if op = "<=" then
    match pyLeV rv value with
    | some b => .ok b
    | none => .error .typeError
  else if op = "between" then
    match value2 with
    | none => .error .keyError
    | some v2 =>
      match pyLeV value rv with
      | none => .error .typeError
      | some false => .ok false
      | some true =>
        match pyLeV rv v2 with
        | none => .error .typeError
        | some b => .ok b
  else .ok true

/-- One iteration of the `for condition in conditions` loop of
`_matches_conditions`: a `None` record value short-circuits to false; a
date record value runs the coercion block (possibly mutating the
condition's `value2` in place); then the operator dispatch runs. Returns
the result together with the condition object as the caller now sees it. -/
def matchCond (record : Rec) (c : Condition) : (Except PyErr Bool) × Condition :=
  match record c.field with
  | .null => (.ok false, c)
  | .date rd =>
    match dateCoerce c (effOp c) with
    | .falseNow => (.ok false, c)
    | .keyErr => (.error .keyError, c)
    | .ok v c' => (applyOp (effOp c) (Value.date rd) v c'.value2, c')
  | rv => (applyOp (effOp c) rv c.value c.value2, c)

/-- `DBFReader._matches_conditions` (`dbf_reader.py` lines 292-350) over
a list of conditions, threading the visible mutation of the condition
objects: the loop stops at the first false/raising condition, leaving the
remaining conditions untouched. -/
def matchesConditions (record : Rec) : List Condition → (Except PyErr Bool) × List Condition
  | [] => (.ok true, [])
  | c :: cs =>
    match matchCond record c with
    | (.ok true, c') =>
      let r := matchesConditions record cs
      (r.1, c' :: r.2)
    | (res, c') => (res, c' :: cs)

/-- Python truthiness of `limit and len(filtered_records) >= limit`. -/
def limitReached : Option Int → Nat → Bool
  | none, _ => false
  | some l, len => l ≠ 0 && (len : Int) ≥ l

/-- The `for record in dbf` loop of `get_filtered_records`
(`dbf_reader.py` lines 279-284): append matching records, breaking once
the limit is truthy and reached; an escaping exception carries the
condition list as mutated so far. -/
def filterLoop (limit : Option Int) (conds : List Condition) (acc : List Rec) :
    List Rec → (Except PyErr (List Rec)) × List Condition
  | [] => (.ok acc, conds)
  | r :: rs =>
    match matchesConditions r conds with
    | (.error e, conds') => (.error e, conds')
    | (.ok true, conds') =>
      let acc' := acc ++ [r]
      if limitReached limit acc'.length then (.ok acc', conds')
      else filterLoop limit conds' acc' rs
    | (.ok false, conds') => filterLoop limit conds' acc rs

/-- `DBFReader.get_filtered_records` (`dbf_reader.py` lines 234-290):
validate the condition fields against the schema, then filter. Every
exception is caught and reported as `None` (the first component); the
second component is the condition list as the caller sees it afterwards
(dict mutation is visible through the shared objects). -/
def getFilteredRecords (fieldNames : List String) (records : List Rec)
    (conditions : List Condition) (limit : Option Int) :
    Option (List Rec) × List Condition :=
  if conditions.all (fun c => fieldNames.contains c.field) then
    match filterLoop limit conditions [] records with
    | (.ok l, cs) => (some l, cs)
    | (.error _, cs) => (none, cs)
  else (none, conditions)

/-! ### Filtering lemmas -/

lemma dateCoerceV2_shape (v : Value) (c : Condition) (op : String) :
    ∀ w c', dateCoerceV2 v c op = .ok w c' →
      c' = c ∨ ∃ d2, c' = { c with value2 := some (Value.date d2) } := by
  intro w c' h
  unfold dateCoerceV2 at h
  by_cases hop : op = "between"
  · rw [if_pos hop] at h
    rcases hv2 : c.value2 with _ | v2
    · rw [hv2] at h; simp at h
    · rcases v2 with _ | n | s2 | dd | b
      · rw [hv2] at h; simp at h; left; exact h.2.symm
      · rw [hv2] at h; simp at h; left; exact h.2.symm
      · rw [hv2] at h
        simp only [] at h
        rcases hp : parseDate s2 with _ | d2
        · rw [hp] at h; simp at h
        · rw [hp] at h; simp at h; right; exact ⟨d2, h.2.symm⟩
      · rw [hv2] at h; simp at h; left; exact h.2.symm
      · rw [hv2] at h; simp at h; left; exact h.2.symm
  · rw [if_neg hop] at h; simp at h; left; exact h.2.symm

lemma dateCoerce_shape (c : Condition) (op : String) :
    ∀ w c', dateCoerce c op = .ok w c' →
      c' = c ∨ ∃ d2, c' = { c with value2 := some (Value.date d2) } := by
  intro w c' h
  unfold dateCoerce at h
  rcases hv : c.value with _ | n | s | dd | b
  all_goals rw [hv] at h
  all_goals rw [← hv]
  · exact dateCoerceV2_shape _ _ _ _ _ h
  · exact dateCoerceV2_shape _ _ _ _ _ h
  · simp only [] at h
    rcases hp : parseDate s with _ | d
    · rw [hp] at h; simp at h
    · rw [hp] at h; exact dateCoerceV2_shape _ _ _ _ _ h
  · exact dateCoerceV2_shape _ _ _ _ _ h
  · exact dateCoerceV2_shape _ _ _ _ _ h

/-- `_matches_conditions` only ever rewrites a condition's `value2`;
`field`, `value` and `operator` are untouched. -/
lemma matchCond_shape (r : Rec) (c : Condition) :
    (matchCond r c).2 = c ∨
      ∃ d2, (matchCond r c).2 = { c with value2 := some (Value.date d2) } := by
  unfold matchCond
  match hrv : r c.field with
  | .null => left; rfl
  | .date rd =>
    match hdc : dateCoerce c (effOp c) with
    | .falseNow => left; rfl
    | .keyErr => left; rfl
    | .ok v c' =>
      simp only []
      exact dateCoerce_shape c (effOp c) v c' hdc
  | .int n => left; rfl
  | .str s => left; rfl
  | .bool b => left; rfl

lemma matchCond_field (r : Rec) (c : Condition) :
    (matchCond r c).2.field = c.field := by
  rcases matchCond_shape r c with h | ⟨d2, h⟩ <;> rw [h]

lemma matchCond_null (r : Rec) (c : Condition) (h : r c.field = Value.null) :
    matchCond r c = (.ok false, c) := by
  unfold matchCond
  rw [h]

lemma matchesConditions_fields (r : Rec) (conds : List Condition) :
    ((matchesConditions r conds).2).map (fun c => c.field)
      = conds.map (fun c => c.field) := by
  induction conds with
  | nil => rfl
  | cons c cs ih =>
    unfold matchesConditions
    match hmc : matchCond r c with
    | (.ok true, c') =>
      simp only [List.map_cons]
      have hf : c'.field = c.field := by
        have := matchCond_field r c
        rw [hmc] at this
        exact this
      rw [hf, ih]
    | (.ok false, c') =>
      simp only [List.map_cons]
      have hf : c'.field = c.field := by
        have := matchCond_field r c
        rw [hmc] at this
        exact this
      rw [hf]
    | (.error e, c') =>
      simp only [List.map_cons]
      have hf : c'.field = c.field := by
        have := matchCond_field r c
        rw [hmc] at this
        exact this
      rw [hf]

/-- If some condition in the list evaluates to `ok false` for this record,
the conjunction can never report `true`. -/
lemma matches_ne_true_of_mem (record : Rec) (c : Condition)
    (h : (matchCond record c).1 = Except.ok false) :
    ∀ conds : List Condition, c ∈ conds →
      (matchesConditions record conds).1 ≠ Except.ok true := by
  intro conds
  induction conds with
  | nil => intro hmem; exact absurd hmem (List.not_mem_nil c)
  | cons d ds ih =>
    intro hmem
    rcases List.mem_cons.mp hmem with hd | hd
    · subst hd
      unfold matchesConditions
      match hmc : matchCond record c with
      | (.ok true, c') => rw [hmc] at h; exact absurd h (by simp)
      | (.ok false, c') => simp
      | (.error e, c') => simp
    · unfold matchesConditions
      match hmc : matchCond record d with
      | (.ok true, d') =>
        simp only []
        exact ih hd
      | (.ok false, d') => simp
      | (.error e, d') => simp

/-- A record with a null value on some condition's field never matches. -/
lemma matches_ne_true_of_null (record : Rec) (conds : List Condition)
    (h : ∃ c ∈ conds, record c.field = Value.null) :
    (matchesConditions record conds).1 ≠ Except.ok true := by
  rcases h with ⟨c, hmem, hnull⟩
  exact matches_ne_true_of_mem record c
    (by rw [matchCond_null record c hnull]) conds hmem

/-- The null-field witness survives the in-place mutation performed while
other records are filtered: fields are preserved. -/
lemma null_witness_preserved (record r : Rec) (conds : List Condition)
    (h : ∃ c ∈ conds, record c.field = Value.null) :
    ∃ c ∈ (matchesConditions r conds).2, record c.field = Value.null := by
  rcases h with ⟨c, hmem, hnull⟩
  have hmap := matchesConditions_fields r conds
  have hfmem : c.field ∈ conds.map (fun c => c.field) :=
    List.mem_map_of_mem (fun c => c.field) hmem
  rw [← hmap] at hfmem
  rcases List.mem_map.mp hfmem with ⟨c', hc'mem, hc'field⟩
  exact ⟨c', hc'mem, by rw [hc'field]; exact hnull⟩

/-- Through the whole record loop, a record that is null on a filtered
field is never appended to the output. -/
lemma filterLoop_excludes (record : Rec) :
    ∀ (rs : List Rec) (conds : List Condition) (acc : List Rec)
      (limit : Option Int) (out : List Rec) (cs : List Condition),
      (∃ c ∈ conds, record c.field = Value.null) →
      filterLoop limit conds acc rs = (.ok out, cs) →
      record ∉ acc → record ∉ out := by
  intro rs
  induction rs with
  | nil =>
    intro conds acc limit out cs _ hloop hacc
    unfold filterLoop at hloop
    injection hloop with h1 h2
    injection h1 with h1
    rw [← h1]
    exact hacc
  | cons r rs ih =>
    intro conds acc limit out cs hQ hloop hacc
    unfold filterLoop at hloop
    match hmc : matchesConditions r conds with
    | (.error e, conds') =>
      rw [hmc] at hloop
      simp at hloop
    | (.ok true, conds') =>
      rw [hmc] at hloop
      simp only [] at hloop
      have hrne : r ≠ record := by
        intro hr
        subst hr
        have := matches_ne_true_of_null r conds hQ
        rw [hmc] at this
        exact this rfl
      have hacc' : record ∉ acc ++ [r] := by
        intro hmem
        rcases List.mem_append.mp hmem with h | h
        · exact hacc h
        · rcases List.mem_singleton.mp h with h
          exact hrne h.symm
      by_cases hlim : limitReached limit (acc ++ [r]).length = true
      · rw [if_pos hlim] at hloop
        injection hloop with h1 h2
        injection h1 with h1
        rw [← h1]
        exact hacc'
      · rw [if_neg (by simpa using hlim)] at hloop
        have hQ' : ∃ c ∈ conds', record c.field = Value.null := by
          have := null_witness_preserved record r conds hQ
          rw [hmc] at this
          exact this
        exact ih conds' (acc ++ [r]) limit out cs hQ' hloop hacc'
    | (.ok false, conds') =>
      rw [hmc] at hloop
      simp only [] at hloop
      have hQ' : ∃ c ∈ conds', record c.field = Value.null := by
        have := null_witness_preserved record r conds hQ
        rw [hmc] at this
        exact this
      exact ih conds' acc limit out cs hQ' hloop hacc

/-! ### Claim C3: null-field exclusion -/

/-- Claim C3: for every record and non-empty condition list, if the
record's value on some condition's field is `None`, the record does not
match (whatever the operator), and the filter call never returns it. -/
theorem null_field_excluded (record : Rec) (conds : List Condition)
    (c : Condition) (hmem : c ∈ conds) (hnull : record c.field = Value.null) :
    (matchesConditions record conds).1 ≠ Except.ok true ∧
    ∀ (fns : List String) (records : List Rec) (limit : Option Int)
      (out : List Rec) (cs : List Condition),
      getFilteredRecords fns records conds limit = (some out, cs) →
      record ∉ out := by
  constructor
  · exact matches_ne_true_of_null record conds ⟨c, hmem, hnull⟩
  · intro fns records limit out cs hcall
    unfold getFilteredRecords at hcall
    by_cases hval : conds.all (fun c => fns.contains c.field) = true
    · rw [if_pos hval] at hcall
      match hloop : filterLoop limit conds [] records with
      | (.ok l, cs') =>
        rw [hloop] at hcall
        simp only [] at hcall
        injection hcall with hc1 hc2
        injection hc1 with hc1
        subst hc1
        exact filterLoop_excludes record records conds [] limit l cs'
          ⟨c, hmem, hnull⟩ hloop (List.not_mem_nil record)
      | (.error e, cs') =>
        rw [hloop] at hcall
        simp at hcall
    · rw [if_neg hval] at hcall
      simp at hcall

/-- Concrete record for the C3 witness: null on every field. -/
def c3rec : Rec := fun _ => Value.null

/-- Concrete condition for the C3 witness. -/
def c3cond : Condition := ⟨"A", Value.int 1, none, none⟩

theorem null_field_excluded_witness :
    (matchesConditions c3rec [c3cond]).1 ≠ Except.ok true :=
  (null_field_excluded c3rec [c3cond] c3cond (List.mem_singleton.mpr rfl) rfl).1

/-! ### Claim C4: what a date-parse failure actually does -/

/-- Concrete record for C4: a date value on every field. -/
def c4rec : Rec := fun _ => Value.date ⟨2024, 1, 15⟩

/-- Concrete condition for C4: a literal that does not parse as
`YYYY-MM-DD`. -/
def c4cond : Condition := ⟨"D", Value.str "bad-date-x".data, none, none⟩

/-- Counterexample to claim C4: with a date-valued record and an
unparseable condition literal, the filter call does NOT fail — it returns
a list (the record merely does not match), so no `ValidationError`
surfaces to the caller. -/
theorem date_parse_failure_cex :
    (getFilteredRecords ["D"] [c4rec] [c4cond] none).1 = some [] ∧
    some ([] : List Rec) ≠ (none : Option (List Rec)) :=
  ⟨rfl, by simp⟩

/-- Claim C4 as amended: a date-parse failure makes that condition
evaluate to false for that record (the `ValueError` is caught inside
`_matches_conditions`), so the record is excluded and the filter call
completes normally instead of failing. -/
theorem date_parse_failure_excludes (record : Rec) (c : Condition)
    (d : Date) (s : List Char)
    (hrv : record c.field = Value.date d) (hv : c.value = Value.str s)
    (hp : parseDate s = none) :
    matchCond record c = (.ok false, c) ∧
    ∀ conds : List Condition, c ∈ conds →
      (matchesConditions record conds).1 ≠ Except.ok true := by
  have hdc : dateCoerce c (effOp c) = .falseNow := by
    unfold dateCoerce
    rw [hv]
    simp only []
    rw [hp]
  have hmc : matchCond record c = (.ok false, c) := by
    unfold matchCond
    rw [hrv]
    simp only []
    rw [hdc]
  exact ⟨hmc, fun conds hmem =>
    matches_ne_true_of_mem record c (by rw [hmc]) conds hmem⟩

theorem date_parse_failure_excludes_witness :
    matchCond c4rec c4cond = (.ok false, c4cond) ∧
    ∀ conds : List Condition, c4cond ∈ conds →
      (matchesConditions c4rec conds).1 ≠ Except.ok true :=
  date_parse_failure_excludes c4rec c4cond ⟨2024, 1, 15⟩ "bad-date-x".data
    rfl rfl rfl

/-! ### Claim C5: limit semantics -/

/-- Concrete record for C5. -/
def c5rec : Rec := fun _ => Value.int 1

/-- Concrete condition for C5, matched by `c5rec`. -/
def c5cond : Condition := ⟨"A", Value.int 1, none, none⟩

/-- Counterexample to claim C5 at `L = 0`: Python's `if limit and ...`
treats a zero limit as falsy, so `limit = 0` returns ALL matching records
instead of the first `0`. -/
theorem limit_zero_cex :
    (getFilteredRecords ["A"] [c5rec] [c5cond] (some 0)).1 = some [c5rec] ∧
    [c5rec] ≠ ([] : List Rec) :=
  ⟨rfl, by simp⟩

lemma filterLoop_extends :
    ∀ (rs : List Rec) (conds : List Condition) (acc : List Rec)
      (limit : Option Int) (out : List Rec) (cs : List Condition),
      filterLoop limit conds acc rs = (.ok out, cs) → ∃ ext, out = acc ++ ext := by
  intro rs
  induction rs with
  | nil =>
    intro conds acc limit out cs h
    unfold filterLoop at h
    injection h with h1 h2
    injection h1 with h1
    exact ⟨[], by rw [← h1, List.append_nil]⟩
  | cons r rs ih =>
    intro conds acc limit out cs h
    unfold filterLoop at h
    match hmc : matchesConditions r conds with
    | (.error e, conds') => rw [hmc] at h; simp at h
    | (.ok true, conds') =>
      rw [hmc] at h
      simp only [] at h
      by_cases hlim : limitReached limit (acc ++ [r]).length = true
      · rw [if_pos hlim] at h
        injection h with h1 h2
        injection h1 with h1
        exact ⟨[r], h1.symm⟩
      · rw [if_neg (by simpa using hlim)] at h
        rcases ih conds' (acc ++ [r]) limit out cs h with ⟨ext, hext⟩
        refine ⟨r :: ext, ?_⟩
        rw [hext, List.append_assoc]
        rfl
    | (.ok false, conds') =>
      rw [hmc] at h
      simp only [] at h
      exact ih conds' acc limit out cs h

lemma limitReached_some_iff (L : Int) (n : Nat) :
    limitReached (some L) n = true ↔ (L ≠ 0 ∧ ((n : Int)) ≥ L) := by
  unfold limitReached
  simp

/-- Running the loop with a positive limit yields exactly the first
`L` elements of the unlimited run. -/
lemma filterLoop_limited (L : Int) (hL : 1 ≤ L) :
    ∀ (rs : List Rec) (conds : List Condition) (acc : List Rec)
      (all : List Rec) (cs : List Condition),
      acc.length < L.toNat →
      filterLoop none conds acc rs = (.ok all, cs) →
      (filterLoop (some L) conds acc rs).1 = .ok (all.take L.toNat) := by
  intro rs
  induction rs with
  | nil =>
    intro conds acc all cs hlt h
    unfold filterLoop at h ⊢
    injection h with h1 h2
    injection h1 with h1
    subst h1
    simp only []
    rw [List.take_of_length_le (le_of_lt hlt)]
  | cons r rs ih =>
    intro conds acc all cs hlt h
    unfold filterLoop at h ⊢
    match hmc : matchesConditions r conds with
    | (.error e, conds') => rw [hmc] at h; simp at h
    | (.ok false, conds') =>
      rw [hmc] at h
      simp only [] at h ⊢
      exact ih conds' acc all cs hlt h
    | (.ok true, conds') =>
      rw [hmc] at h
      simp only [] at h ⊢
      rw [if_neg (by simp [limitReached])] at h
      by_cases heq : (acc ++ [r]).length = L.toNat
      · have hreach : limitReached (some L) (acc ++ [r]).length = true := by
          unfold limitReached
          rw [heq]
          have hL0 : L ≠ 0 := by omega
          have hcast : ((L.toNat : Int)) = L := Int.toNat_of_nonneg (by omega)
          simp [hL0, hcast]
        rw [if_pos hreach]
        rcases filterLoop_extends rs conds' (acc ++ [r]) none all cs h with ⟨ext, hext⟩
        rw [hext, ← heq, List.take_left]
      · have hlen : (acc ++ [r]).length = acc.length + 1 := by
          rw [List.length_append, List.length_singleton]
        rw [hlen] at heq
        have hlt2 : acc.length + 1 < L.toNat := by omega
        have hreach : limitReached (some L) (acc.length + 1) = false := by
          rw [Bool.eq_false_iff, Ne, limitReached_some_iff]
          omega
        rw [if_neg (by simp [hreach])]
        exact ih conds' (acc ++ [r]) all cs (by rw [hlen]; omega) h

/-- Claim C5 as amended: for `limit = L ≥ 1`, the filter returns exactly
the first `L` records of the unlimited run (early exit, source order);
`limit = 0` and absent limits both return all matches. -/
theorem limit_returns_first_matches (fns : List String) (records : List Rec)
    (conds : List Condition) (L : Int) (hL : 1 ≤ L) (all : List Rec)
    (h : (getFilteredRecords fns records conds none).1 = some all) :
    (getFilteredRecords fns records conds (some L)).1 = some (all.take L.toNat) ∧
    (L.toNat ≤ all.length → (all.take L.toNat).length = L.toNat) := by
  constructor
  · unfold getFilteredRecords at h ⊢
    by_cases hval : conds.all (fun c => fns.contains c.field) = true
    · rw [if_pos hval] at h ⊢
      match hloop : filterLoop none conds [] records with
      | (.error e, cs') => rw [hloop] at h; simp at h
      | (.ok l, cs') =>
        rw [hloop] at h
        simp only [] at h
        injection h with h
        subst h
        have hlt : ([] : List Rec).length < L.toNat := by
          simp only [List.length_nil]
          omega
        have hlim := filterLoop_limited L hL records conds [] l cs' hlt hloop
        match hloop2 : filterLoop (some L) conds [] records with
        | (.ok l2, cs2) =>
          rw [hloop2] at hlim
          simp only [] at hlim
          injection hlim with hlim
          simp only []
          rw [hlim]
        | (.error e2, cs2) =>
          rw [hloop2] at hlim
          simp at hlim
    · rw [if_neg hval] at h
      simp at h
  · intro hle
    rw [List.length_take]
    omega

theorem limit_returns_first_matches_witness :
    (getFilteredRecords ["A"] [c5rec] [c5cond] (some 1)).1
      = some ([c5rec].take (1 : Int).toNat) ∧
    ((1 : Int).toNat ≤ [c5rec].length →
      ([c5rec].take (1 : Int).toNat).length = (1 : Int).toNat) :=
  limit_returns_first_matches ["A"] [c5rec] [c5cond] 1 (by decide) [c5rec] rfl

/-! ### Claim C9: in-place condition coercion -/

lemma dateCoerceV2_stable (v : Value) (c : Condition) (op : String) (d2 : Date)
    (h : c.value2 = some (Value.date d2)) : dateCoerceV2 v c op = .ok v c := by
  unfold dateCoerceV2
  by_cases hop : op = "between"
  · rw [if_pos hop, h]
  · rw [if_neg hop]

lemma dateCoerce_stable (c : Condition) (op : String) (d2 : Date)
    (h : c.value2 = some (Value.date d2)) :
    dateCoerce c op = .falseNow ∨ ∃ v, dateCoerce c op = .ok v c := by
  unfold dateCoerce
  rcases hv : c.value with _ | n | s | dd | b
  · exact Or.inr ⟨Value.null, dateCoerceV2_stable _ _ _ _ h⟩
  · exact Or.inr ⟨Value.int n, dateCoerceV2_stable _ _ _ _ h⟩
  · simp only []
    rcases hp : parseDate s with _ | dp
    · exact Or.inl rfl
    · exact Or.inr ⟨Value.date dp, dateCoerceV2_stable _ _ _ _ h⟩
  · exact Or.inr ⟨Value.date dd, dateCoerceV2_stable _ _ _ _ h⟩
  · exact Or.inr ⟨Value.bool b, dateCoerceV2_stable _ _ _ _ h⟩

/-- Once a condition's `value2` holds a parsed date, no later record can
change it: the assignment only fires when `value2` is a string. -/
lemma matchCond_value2_stable (r : Rec) (c : Condition) (d2 : Date)
    (h : c.value2 = some (Value.date d2)) :
    (matchCond r c).2.value2 = some (Value.date d2) := by
  unfold matchCond
  rcases hrv : r c.field with _ | n | s | dd | b
  · exact h
  · exact h
  · exact h
  · simp only []
    rcases dateCoerce_stable c (effOp c) d2 h with hdc | ⟨v, hdc⟩
    · rw [hdc]; exact h
    · rw [hdc]; exact h
  · exact h

lemma matchesConditions_head (r : Rec) (c : Condition) (cs : List Condition) :
    ∃ rest, (matchesConditions r (c :: cs)).2 = (matchCond r c).2 :: rest := by
  unfold matchesConditions
  match hmc : matchCond r c with
  | (.ok true, c') => exact ⟨(matchesConditions r cs).2, rfl⟩
  | (.ok false, c') => exact ⟨cs, rfl⟩
  | (.error e, c') => exact ⟨cs, rfl⟩

/-- A dated `value2` at the head of the condition list survives the whole
record loop. -/
lemma filterLoop_head_stable (d2 : Date) :
    ∀ (rs : List Rec) (c : Condition) (cs : List Condition) (acc : List Rec)
      (limit : Option Int),
      c.value2 = some (Value.date d2) →
      ∃ c' rest, (filterLoop limit (c :: cs) acc rs).2 = c' :: rest ∧
        c'.value2 = some (Value.date d2) := by
  intro rs
  induction rs with
  | nil =>
    intro c cs acc limit h
    exact ⟨c, cs, rfl, h⟩
  | cons r rs ih =>
    intro c cs acc limit h
    have hstab : ((matchCond r c).2).value2 = some (Value.date d2) :=
      matchCond_value2_stable r c d2 h
    rcases matchesConditions_head r c cs with ⟨rest, hrest⟩
    unfold filterLoop
    rcases hme : matchesConditions r (c :: cs) with ⟨res, conds'⟩
    rw [hme] at hrest
    simp only [] at hrest
    rcases res with e | b
    · exact ⟨(matchCond r c).2, rest, hrest, hstab⟩
    · rcases b with _ | _
      · simp only []
        rw [hrest]
        exact ih (matchCond r c).2 rest acc limit hstab
      · simp only []
        by_cases hlim : limitReached limit (acc ++ [r]).length = true
        · rw [if_pos hlim]
          exact ⟨(matchCond r c).2, rest, hrest, hstab⟩
        · rw [if_neg (by simpa using hlim)]
          rw [hrest]
          exact ih (matchCond r c).2 rest (acc ++ [r]) limit hstab

lemma getFilteredRecords_snd (fns : List String) (records : List Rec)
    (conds : List Condition) (limit : Option Int)
    (hval : conds.all (fun c => fns.contains c.field) = true) :
    (getFilteredRecords fns records conds limit).2
      = (filterLoop limit conds [] records).2 := by
  unfold getFilteredRecords
  rw [if_pos hval]
  rcases h : filterLoop limit conds [] records with ⟨res, cs⟩
  rcases res with e | l <;> simp

/-- Claim C9: a `between` condition with a string `value2`, evaluated
against a record whose value on the field is a date, has `value2`
rewritten in place to the parsed date — and the caller sees the mutation
in the condition list after the filter call returns. -/
theorem between_value2_mutation (record : Rec) (c : Condition)
    (d : Date) (s1 s2 : List Char) (d1 d2 : Date)
    (hop : c.operator = some "between")
    (hv1 : c.value = Value.str s1) (hp1 : parseDate s1 = some d1)
    (hv2 : c.value2 = some (Value.str s2)) (hp2 : parseDate s2 = some d2)
    (hrv : record c.field = Value.date d) :
    (matchCond record c).2 = { c with value2 := some (Value.date d2) } ∧
    ∀ (fns : List String) (rs : List Rec) (cs : List Condition)
      (limit : Option Int),
      ((c :: cs).all (fun x => fns.contains x.field)) = true →
      ∃ c' rest,
        (getFilteredRecords fns (record :: rs) (c :: cs) limit).2 = c' :: rest ∧
        c'.value2 = some (Value.date d2) := by
  have hop2 : effOp c = "between" := by
    unfold effOp
    rw [hop]
    rfl
  have hdc : dateCoerce c (effOp c)
      = .ok (Value.date d1) { c with value2 := some (Value.date d2) } := by
    unfold dateCoerce
    rw [hv1]
    simp only []
    rw [hp1]
    simp only []
    unfold dateCoerceV2
    rw [hop2, if_pos rfl, hv2]
    simp only []
    rw [hp2]
    simp only []
    rw [hv1]
  have hmut : (matchCond record c).2 = { c with value2 := some (Value.date d2) } := by
    unfold matchCond
    rw [hrv]
    simp only []
    rw [hdc]
  refine ⟨hmut, ?_⟩
  intro fns rs cs limit hval
  rw [getFilteredRecords_snd fns (record :: rs) (c :: cs) limit hval]
  have hstab : ((matchCond record c).2).value2 = some (Value.date d2) := by
    rw [hmut]
  rcases matchesConditions_head record c cs with ⟨rest, hrest⟩
  unfold filterLoop
  rcases hme : matchesConditions record (c :: cs) with ⟨res, conds'⟩
  rw [hme] at hrest
  simp only [] at hrest
  rcases res with e | b
  · exact ⟨(matchCond record c).2, rest, hrest, hstab⟩
  · rcases b with _ | _
    · simp only []
      rw [hrest]
      exact filterLoop_head_stable d2 rs (matchCond record c).2 rest [] limit hstab
    · simp only []
      by_cases hlim : limitReached limit ([] ++ [record]).length = true
      · rw [if_pos hlim]
        exact ⟨(matchCond record c).2, rest, hrest, hstab⟩
      · rw [if_neg (by simpa using hlim)]
        rw [hrest]
        exact filterLoop_head_stable d2 rs (matchCond record c).2 rest
          ([] ++ [record]) limit hstab

/-- Concrete inputs for the C9 witness. -/
def c9rec : Rec := fun _ => Value.date ⟨2024, 6, 1⟩

/-- Concrete `between` condition with string bounds for the C9 witness. -/
def c9cond : Condition :=
  ⟨"D", Value.str "2024-01-01".data, some "between", some (Value.str "2024-12-31".data)⟩

theorem between_value2_mutation_witness :
    (matchCond c9rec c9cond).2
      = { c9cond with value2 := some (Value.date ⟨2024, 12, 31⟩) } ∧
    ∀ (fns : List String) (rs : List Rec) (cs : List Condition)
      (limit : Option Int),
      ((c9cond :: cs).all (fun x => fns.contains x.field)) = true →
      ∃ c' rest,
        (getFilteredRecords fns (c9rec :: rs) (c9cond :: cs) limit).2 = c' :: rest ∧
        c'.value2 = some (Value.date ⟨2024, 12, 31⟩) :=
  between_value2_mutation c9rec c9cond ⟨2024, 6, 1⟩
    "2024-01-01".data "2024-12-31".data ⟨2024, 1, 1⟩ ⟨2024, 12, 31⟩
    rfl rfl rfl rfl rfl rfl

/-! ### Connection pool manager (`db_connection.py`) -/

/-- A live pool object. `id` models Python object identity (so that
"same pool object before and after" is observable); `closed` models the
psycopg2 `_closed` flag (every real pool object has the attribute, so the
`hasattr` guard in the source is always true). -/
structure PoolHandle where
  id : Nat
  closed : Bool
  deriving DecidableEq, Repr

/-- The singleton's mutable state: `_pool` plus a counter supplying fresh
object identities. -/
structure DBState where
  pool : Option PoolHandle
  nextId : Nat
  deriving DecidableEq, Repr

/-- The failure categories printed by `_initialize_pool`
(`db_connection.py` lines 42-51). -/
inductive ConnErrClass where
  | authFailed
  | dbMissing
  | roleMissing
  | generic
  deriving DecidableEq, Repr

/-- Python `str.lower` (over the character list). -/
def lowerChars (s : List Char) : List Char := s.map Char.toLower

/-- Whether `needle` begins `hay`. -/
def startsWithChars : List Char → List Char → Bool
  | _, [] => true
  | [], _ :: _ => false
  | a :: as, b :: bs => a = b && startsWithChars as bs

/-- Python `needle in hay` substring test. -/
def hasSubChars (needle : List Char) : List Char → Bool
  | [] => startsWithChars [] needle
  | c :: t => startsWithChars (c :: t) needle || hasSubChars needle t

/-- The error-message classification of `_initialize_pool`
(`db_connection.py` lines 43-51): substring matches on the lowercased
psycopg2 message. -/
def classifyConnError (msg : String) : ConnErrClass :=
  let low := lowerChars msg.data
  if hasSubChars "password authentication failed".data low then .authFailed
  else if hasSubChars "database".data low && hasSubChars "does not exist".data low then .dbMissing
  else if hasSubChars "role".data low && hasSubChars "does not exist".data low then .roleMissing
  else .generic

/-- The `ThreadedConnectionPool(...)` construction attempt plus the
`except` clauses of `_initialize_pool`: the environment says whether the
endpoint is reachable (`none`) or which psycopg2 error message is raised
(`some msg`). Success installs a fresh pool object; failure prints a
classification and leaves `_pool = None`. -/
def poolAttempt (connEnv : Option String) (s : DBState) : DBState × Option ConnErrClass :=
  match connEnv with
  | none => (⟨some ⟨s.nextId, false⟩, s.nextId + 1⟩, none)
  | some msg => ({ s with pool := none }, some (classifyConnError msg))

/-- `DBConnection._initialize_pool` (`db_connection.py` lines 24-55):
an existing open pool short-circuits; an existing closed pool is dropped
and recreated; otherwise the construction attempt runs. -/
def initializePool (connEnv : Option String) (s : DBState) : DBState × Option ConnErrClass :=
  match s.pool with
  | some h => if h.closed then poolAttempt connEnv { s with pool := none } else (s, none)
  | none => poolAttempt connEnv s

/-- The guard of `ensure_pool_is_open`:
`self._pool is None or self._pool._closed`. -/
def poolClosedOrMissing (s : DBState) : Bool :=
  match s.pool with
  | none => true
  | some h => h.closed

/-- `DBConnection.ensure_pool_is_open` (`db_connection.py` lines 57-63). -/
def ensurePoolIsOpen (connEnv : Option String) (s : DBState) : DBState × Option ConnErrClass :=
  if poolClosedOrMissing s then initializePool connEnv s else (s, none)

/-- What the cursor execution does, as dictated by the environment: the
statement succeeds or raises one of the errors classified by
`execute_query`'s handlers (`db_connection.py` lines 107-141). -/
inductive StmtBehavior where
  | success
  | duplicateTable
  | uniqueViolation
  | programmingError
  | otherPgError
  | unexpectedError
  deriving DecidableEq, Repr

/-- The observable outcome of `execute_query`: a fetched row set for
SELECTs, an affected-row count for writes, or a classified failure
(the source prints the classification and returns `None`; no exception
escapes). -/
inductive QueryResult where
  | rows (rs : List (List Value))
  | affected (n : Int)
  | connectivityError (cls : Option ConnErrClass)
  | statementError (k : StmtBehavior)
  deriving DecidableEq, Repr

/-- Python `str.strip()` over characters. -/
def stripChars (l : List Char) : List Char :=
  ((l.dropWhile Char.isWhitespace).reverse.dropWhile Char.isWhitespace).reverse

/-- `query.strip().upper().startswith('SELECT')`. -/
def isSelect (q : String) : Bool :=
  startsWithChars ((stripChars q.data).map Char.toUpper) "SELECT".data

/-- `DBConnection.execute_query` (`db_connection.py` lines 88-144):
`get_connection` first ensures the pool is open and raises
`ConnectionError` when `_pool` is still `None`; `execute_query` catches
that and returns a connectivity failure (the classification was printed
by `_initialize_pool`). With a live pool, the cursor either succeeds
(rows for a SELECT per `fetched`, else commit and the row count) or hits
one of the classified statement-error handlers, each of which rolls back
and returns `None`. -/
def executeQuery (connEnv : Option String) (beh : StmtBehavior)
    (fetched : List (List Value)) (rowcount : Int) (q : String)
    (s : DBState) : QueryResult × DBState :=
  let er := ensurePoolIsOpen connEnv s
  match er.1.pool with
  | none => (.connectivityError er.2, er.1)
  | some _ =>
    match beh with
    | .success =>
      if isSelect q then (.rows fetched, er.1) else (.affected rowcount, er.1)
    | k => (.statementError k, er.1)

/-! ### Claim C7: ensure_pool_is_open is idempotent -/

/-- Claim C7: with an existing open pool, `ensure_pool_is_open` performs
no reinitialization and leaves the very same pool state (also when called
twice in a row); with a missing or closed pool it runs
`_initialize_pool`. -/
theorem ensure_pool_idempotent (env env2 : Option String) (s : DBState)
    (h : PoolHandle) (h1 : s.pool = some h) (h2 : h.closed = false) :
    ensurePoolIsOpen env s = (s, none) ∧
    ensurePoolIsOpen env2 (ensurePoolIsOpen env s).1 = (s, none) ∧
    (∀ t : DBState, poolClosedOrMissing t = true →
      ensurePoolIsOpen env t = initializePool env t) := by
  have hguard : poolClosedOrMissing s = false := by
    unfold poolClosedOrMissing
    rw [h1]
    exact h2
  have hone : ensurePoolIsOpen env s = (s, none) := by
    unfold ensurePoolIsOpen
    rw [hguard]
    rfl
  refine ⟨hone, ?_, ?_⟩
  · rw [hone]
    unfold ensurePoolIsOpen
    rw [hguard]
    rfl
  · intro t ht
    unfold ensurePoolIsOpen
    rw [ht]
    rfl

theorem ensure_pool_idempotent_witness :
    ensurePoolIsOpen none ⟨some ⟨0, false⟩, 1⟩ = (⟨some ⟨0, false⟩, 1⟩, none) ∧
    ensurePoolIsOpen none (ensurePoolIsOpen none ⟨some ⟨0, false⟩, 1⟩).1
      = (⟨some ⟨0, false⟩, 1⟩, none) ∧
    (∀ t : DBState, poolClosedOrMissing t = true →
      ensurePoolIsOpen none t = initializePool none t) :=
  ensure_pool_idempotent none none ⟨some ⟨0, false⟩, 1⟩ ⟨0, false⟩ rfl rfl

/-! ### Claim C8: connectivity failure is classified, not thrown -/

/-- Claim C8: an `execute` call on a closed/uninitialized pool first
attempts reinitialization; when establishing the pool fails, the call
returns a classified connectivity failure — a value, not an escaping
exception — and the pool handle stays unset. -/
theorem connectivity_failure_classified (msg : String) (beh : StmtBehavior)
    (fetched : List (List Value)) (rowcount : Int) (q : String) (s : DBState)
    (hclosed : poolClosedOrMissing s = true) :
    executeQuery (some msg) beh fetched rowcount q s
      = (.connectivityError (some (classifyConnError msg)),
         (initializePool (some msg) s).1) ∧
    (initializePool (some msg) s).1.pool = none ∧
    (executeQuery (some msg) beh fetched rowcount q s).2.pool = none := by
  have hinit : initializePool (some msg) s
      = ({ pool := none, nextId := s.nextId }, some (classifyConnError msg)) := by
    unfold initializePool
    rcases hp : s.pool with _ | h
    · rfl
    · have hc : h.closed = true := by
        unfold poolClosedOrMissing at hclosed
        rw [hp] at hclosed
        exact hclosed
      simp only []
      rw [hc]
      rfl
  have hens : ensurePoolIsOpen (some msg) s = initializePool (some msg) s := by
    unfold ensurePoolIsOpen
    rw [hclosed]
    rfl
  have hpool : (initializePool (some msg) s).1.pool = none := by
    rw [hinit]
  have hcls : (initializePool (some msg) s).2 = some (classifyConnError msg) := by
    rw [hinit]
  have hexec : executeQuery (some msg) beh fetched rowcount q s
      = (.connectivityError (some (classifyConnError msg)),
         (initializePool (some msg) s).1) := by
    unfold executeQuery
    rw [hens]
    rcases hres : initializePool (some msg) s with ⟨s1, cls⟩
    rw [hres] at hpool hcls
    simp only [] at hpool hcls ⊢
    rw [hpool, hcls]
  exact ⟨hexec, hpool, by rw [hexec]; exact hpool⟩

theorem connectivity_failure_classified_witness :
    executeQuery (some "connection refused") StmtBehavior.success [] 0 "SELECT 1"
        ⟨none, 0⟩
      = (.connectivityError (some (classifyConnError "connection refused")),
         (initializePool (some "connection refused") ⟨none, 0⟩).1) ∧
    (initializePool (some "connection refused") ⟨none, 0⟩).1.pool = none ∧
    (executeQuery (some "connection refused") StmtBehavior.success [] 0 "SELECT 1"
        ⟨none, 0⟩).2.pool = none :=
  connectivity_failure_classified "connection refused" StmtBehavior.success [] 0
    "SELECT 1" ⟨none, 0⟩ rfl

/-! ### Claim C10: null renders as NULL for every field kind -/

/-- Claim C10: for every field kind, known or unknown, `format_value`
renders `None` as the unquoted literal `NULL`; the `None` check precedes
all kind dispatch. -/
theorem null_renders_null_all_kinds :
    ∀ (fieldType : Char) (decimal : Nat),
      formatValue Value.null fieldType decimal = "NULL" := by
  intro fieldType decimal
  rfl

end DBFetch
